import Mathlib

/-!
Shallow embedding of the `seo-gap-analyzer` extraction / normalization
pipeline (`utils.py`, `normalize.py`, `extractor.py`) and proofs about the
specified properties.

Modelling conventions:
* Python `str` is Lean `String`; `len` is `String.length` (both count
  characters / code points).
* Python `re` whitespace `\s` and `str.strip()` are modelled by the ASCII
  whitespace characters relevant to HTML text (space, tab, newline,
  carriage return, vertical tab, form feed).
* `str.lower()` is modelled by ASCII lowercasing (`Char.toLower`); all the
  string literals involved in the program's comparisons are ASCII.
-/

/-- Whitespace, as matched by Python's `\s` and `str.strip` (ASCII part). -/
def isSpace (c : Char) : Bool :=
  c = ' ' || c = '\t' || c = '\n' || c = '\r' || c = '\x0b' || c = '\x0c'

/-- Collapse every maximal run of whitespace characters into a single blank,
mirroring `re.sub(r"\s+", " ", s)`. -/
def collapseWs : List Char → List Char
  | [] => []
  | [c] => if isSpace c then [' '] else [c]
  | c₁ :: c₂ :: cs =>
    if isSpace c₁ && isSpace c₂ then collapseWs (c₂ :: cs)
    else (if isSpace c₁ then ' ' else c₁) :: collapseWs (c₂ :: cs)

/-- Drop leading whitespace. -/
def trimLeft (l : List Char) : List Char := l.dropWhile isSpace

/-- Drop trailing whitespace. -/
def trimRight (l : List Char) : List Char := (l.reverse.dropWhile isSpace).reverse

/-- Embedding of `utils.clean_text` on character lists:
`re.sub(r"\s+", " ", s).strip()`. -/
def cleanTextL (l : List Char) : List Char := trimRight (trimLeft (collapseWs l))

/-- Embedding of `utils.clean_text` (`if not s: return ""` is absorbed by the
fact that cleaning the empty string yields the empty string). -/
def cleanText (s : String) : String := String.mk (cleanTextL s.toList)

/-- Embedding of `str.lower` (ASCII). -/
def lowerStr (s : String) : String := String.mk (s.toList.map Char.toLower)

/-- Embedding of `utils.normalize_ws_lower`: `clean_text(s).lower()`. -/
def normalize_ws_lower (s : String) : String := lowerStr (cleanText s)

/-- Does the first list occur at the head of the second one? -/
def headMatch : List Char → List Char → Bool
  | [], _ => true
  | _ :: _, [] => false
  | a :: as, b :: bs => a = b && headMatch as bs

/-- Does the first list occur as a contiguous run inside the second one? -/
def listInfixOf : List Char → List Char → Bool
  | n, [] => headMatch n []
  | n, c :: t => headMatch n (c :: t) || listInfixOf n t

/-- Boolean substring test; models Python's `x in s` on strings and
`re.search` of a literal pattern. -/
def strContains (hay needle : String) : Bool :=
  listInfixOf needle.toList hay.toList

/-!
Regular-expression fragment used in `normalize.SECTION_SYNONYMS`.  Every
pattern there is a concatenation of literal text, alternations of literals
`(a|b|…)`, and optional literals `(x )?` / `s?`, used with `re.search`.
Such a pattern matches a string under `re.search` iff one of its finitely
many literal expansions occurs as a substring.
-/

/-- One syntactic piece of a `SECTION_SYNONYMS` regex. -/
inductive RePart where
  | lit (s : String)
  | alt (ss : List String)
  | opt (s : String)

/-- Literal alternatives generated by one regex piece. -/
def partAlts : RePart → List String
  | .lit s => [s]
  | .alt ss => ss
  | .opt s => [s, ""]

/-- All literal expansions of a concatenation of regex pieces. -/
def expandRe : List RePart → List String
  | [] => [""]
  | p :: ps => (partAlts p).flatMap (fun a => (expandRe ps).map (fun r => a ++ r))

/-- Embedding of `re.search(pattern, s)` for the pattern fragment of
`SECTION_SYNONYMS`: some literal expansion occurs as a substring. -/
def reSearch (ps : List RePart) (s : String) : Bool :=
  (expandRe ps).any (fun a => strContains s a)

/-- Embedding of `normalize.SECTION_SYNONYMS`: the ordered rule list of
`(bucket, regex pattern list)` pairs. -/
def SECTION_SYNONYMS : List (String × List (List RePart)) :=
  [("about_team",
     [[.lit "meet ", .alt ["the", "our"], .lit " ",
       .alt ["doctor", "dentist", "dentists", "team"]],
      [.lit "about ", .opt "the ", .lit "team"],
      [.lit "our team"],
      [.lit "who we are"]]),
   ("testimonials",
     [[.lit "testimonials"], [.lit "reviews"], [.lit "patient stories"],
      [.lit "client stories"],
      [.lit "what ", .alt ["clients", "patients"], .lit " say"]]),
   ("services",
     [[.lit "services"], [.lit "what we offer"], [.lit "treatments"],
      [.lit "solutions"], [.lit "service area", .opt "s"]]),
   ("faq",
     [[.lit "faq"], [.lit "frequently asked"], [.lit "questions"]]),
   ("pricing",
     [[.lit "pricing"], [.lit "fees"], [.lit "cost"], [.lit "plans"]]),
   ("why_choose_us",
     [[.lit "why choose us"], [.lit "why us"], [.lit "our difference"],
      [.lit "what makes us"]]),
   ("contact",
     [[.lit "contact"], [.lit "book ", .alt ["now", "online"]],
      [.lit "get in touch"], [.lit "request ", .opt "a ", .lit "quote"]])]

/-- Inner double loop of `normalize_heading_to_bucket`: walk the rule list in
order, return the first bucket one of whose patterns matches. -/
def bucketLoop (h : String) : List (String × List (List RePart)) → String
  | [] => "other"
  | (bucket, patterns) :: rest =>
    if patterns.any (fun p => reSearch p h) then bucket else bucketLoop h rest

/-- Embedding of `normalize.normalize_heading_to_bucket`. -/
def normalize_heading_to_bucket (heading : String) : String :=
  bucketLoop (normalize_ws_lower heading) SECTION_SYNONYMS

/-- Does any pattern of a rule strictly before the `faq` rule (the rules for
`about_team`, `testimonials` and `services`) match the normalized heading? -/
def earlierRuleMatches (h : String) : Bool :=
  (SECTION_SYNONYMS.take 3).any (fun r => r.2.any (fun p => reSearch p h))

theorem bucketLoop_eq_find (h : String)
    (rules : List (String × List (List RePart))) :
    bucketLoop h rules =
      ((rules.find? (fun r => r.2.any (fun p => reSearch p h))).map
        Prod.fst).getD "other" := by
  induction rules with
  | nil => rfl
  | cons r rest ih =>
    obtain ⟨b, pats⟩ := r
    by_cases hc : pats.any (fun p => reSearch p h) = true
    · simp [bucketLoop, List.find?, hc]
    · simp only [Bool.not_eq_true] at hc
      simp [bucketLoop, List.find?, hc, ih]

theorem reSearch_single_lit (s h : String) :
    reSearch [.lit s] h = strContains h s := by
  simp [reSearch, expandRe, partAlts]

/-- C1 (counterexample): the heading `"Our Services: Frequently Asked"`
contains `"frequently asked"` (case-insensitively, whitespace collapsed), yet
`normalize_heading_to_bucket` returns `"services"`, not `"faq"`, because the
`services` rule precedes the `faq` rule and first match wins. -/
theorem C1_claim_counterexample :
    strContains (normalize_ws_lower "Our Services: Frequently Asked")
      "frequently asked" = true ∧
    normalize_heading_to_bucket "Our Services: Frequently Asked" = "services" ∧
    ¬ normalize_heading_to_bucket "Our Services: Frequently Asked" = "faq" := by
  decide

/-- C1 (amended): the bucket normalizer collapses whitespace and lowercases
the heading and returns the first bucket in the ordered `SECTION_SYNONYMS`
list one of whose patterns matches, with `"other"` when none matches; a
heading containing `"frequently asked"` maps to `"faq"` provided no pattern of
an earlier rule (`about_team`, `testimonials`, `services`) matches; the
heading `"Meet Our Team"` maps to `"about_team"` and `"Random Heading"` maps
to `"other"`. -/
theorem C1_first_match_amended :
    (∀ h : String, normalize_heading_to_bucket h =
      ((SECTION_SYNONYMS.find?
        (fun r => r.2.any (fun p => reSearch p (normalize_ws_lower h)))).map
          Prod.fst).getD "other") ∧
    (∀ h : String,
      strContains (normalize_ws_lower h) "frequently asked" = true →
      earlierRuleMatches (normalize_ws_lower h) = false →
      normalize_heading_to_bucket h = "faq") ∧
    normalize_heading_to_bucket "Meet Our Team" = "about_team" ∧
    normalize_heading_to_bucket "Random Heading" = "other" := by
  refine ⟨fun h => bucketLoop_eq_find _ _, fun h hfa he => ?_, by decide, by decide⟩
  simp only [earlierRuleMatches, SECTION_SYNONYMS, List.take, List.any_cons,
    List.any_nil, Bool.or_eq_false_iff] at he
  obtain ⟨h1, h2, h3, -⟩ := he
  simp only [normalize_heading_to_bucket, SECTION_SYNONYMS, bucketLoop, h1, h2, h3,
    List.any_cons, List.any_nil, Bool.or_false, if_false]
  simp [reSearch_single_lit, hfa]

/-- C1 (witness): instantiating `C1_first_match_amended` at the heading
`"Frequently Asked Questions"`, where no earlier rule matches. -/
theorem C1_first_match_amended_witness :
    normalize_heading_to_bucket "Frequently Asked Questions" = "faq" :=
  C1_first_match_amended.2.1 "Frequently Asked Questions" (by decide) (by decide)

/-!
DOM model.  A BeautifulSoup tree is a forest of nodes; an element node has a
(lowercased-by-the-parser) tag name, an attribute list and children, a text
node is a `NavigableString`.  The soup object itself is the root forest
(`NodeList`).  `find_all` traversals are in document order (preorder).
-/

mutual
inductive Node where
  | text (s : String)
  | elem (tag : String) (attrs : List (String × String)) (children : NodeList)
inductive NodeList where
  | nil
  | cons (hd : Node) (tl : NodeList)
end

/-- Attribute lookup, modelling `tag.get(key)` (`None` when absent). -/
def getAttr (attrs : List (String × String)) (k : String) : Option String :=
  (attrs.find? (fun p => p.1 == k)).map Prod.snd

/-- Tag name of a node (`""` for a text node, whose `name` is `None`). -/
def tagOf : Node → String
  | .elem t _ _ => t
  | .text _ => ""

mutual
/-- NavigableString descendants of a node, in document order. -/
def nodeTextFrags : Node → List String
  | .text s => [s]
  | .elem _ _ cs => listTextFrags cs
/-- NavigableString descendants of a forest, in document order. -/
def listTextFrags : NodeList → List String
  | .nil => []
  | .cons n tl => nodeTextFrags n ++ listTextFrags tl
end

/-- Embedding of Python `str.strip()`. -/
def stripStr (s : String) : String := String.mk (trimRight (trimLeft s.toList))

/-- Embedding of Python `sep.join(parts)`. -/
def joinSep (sep : String) : List String → String
  | [] => ""
  | [x] => x
  | x :: y :: xs => x ++ sep ++ joinSep sep (y :: xs)

/-- Embedding of `node.get_text(" ", strip=True)`: strip every descendant
string, drop the ones that become empty, join the rest with one blank. -/
def getTextStrip (n : Node) : String :=
  joinSep " " (((nodeTextFrags n).map stripStr).filter (fun s => s ≠ ""))

/-- Embedding of `soup.get_text(" ", strip=True)` on the root forest. -/
def listGetTextStrip (l : NodeList) : String :=
  joinSep " " (((listTextFrags l).map stripStr).filter (fun s => s ≠ ""))

mutual
/-- Element nodes of the subtree rooted at a node, in document order. -/
def nodeElems : Node → List Node
  | .text _ => []
  | .elem t a cs => .elem t a cs :: listElems cs
/-- Element nodes of a forest in document order; `soup.find_all(True)` is
`listElems soup`, and the other `find_all`/`find` calls filter it. -/
def listElems : NodeList → List Node
  | .nil => []
  | .cons n tl => nodeElems n ++ listElems tl
end

/-!
DOM cleaner, `extractor._remove_noise`: a first pass decomposes every
`script`/`style`/`noscript`/`svg`/`canvas` element, a second pass decomposes
every element whose inline style contains `display:none` or
`visibility:hidden`.  Decomposing a subtree removes it entirely, so each pass
is a recursive filter by a predicate on the element's own tag and attributes.
-/

mutual
/-- Remove (decompose) every element of the subtree satisfying `p`; `none`
when the node itself is removed. -/
def removeNode (p : String → List (String × String) → Bool) :
    Node → Option Node
  | .text s => some (.text s)
  | .elem t a cs => if p t a then none else some (.elem t a (removeList p cs))
/-- Remove every element of the forest satisfying `p`. -/
def removeList (p : String → List (String × String) → Bool) :
    NodeList → NodeList
  | .nil => .nil
  | .cons n tl =>
    match removeNode p n with
    | none => removeList p tl
    | some n2 => .cons n2 (removeList p tl)
end

/-- Tags decomposed by the first loop of `_remove_noise`. -/
def noisePred (t : String) (_ : List (String × String)) : Bool :=
  ["script", "style", "noscript", "svg", "canvas"].contains t

/-- Hidden-element test of the second loop of `_remove_noise`:
`style = (tag.get("style") or "").lower()` contains `display:none` or
`visibility:hidden`. -/
def hiddenPred (_ : String) (a : List (String × String)) : Bool :=
  let style := lowerStr ((getAttr a "style").getD "")
  strContains style "display:none" || strContains style "visibility:hidden"

/-- Embedding of `extractor._remove_noise` (as a pure tree transformation:
the source mutates the soup in place). -/
def remove_noise (soup : NodeList) : NodeList :=
  removeList hiddenPred (removeList noisePred soup)

mutual
theorem removeNode_comp (p q : String → List (String × String) → Bool) :
    ∀ n : Node,
      (removeNode q n).bind (removeNode p) =
        removeNode (fun t a => q t a || p t a) n
  | .text s => by simp [removeNode]
  | .elem t a cs => by
    by_cases hq : q t a
    · simp [removeNode, hq]
    · by_cases hp : p t a
      · simp [removeNode, hq, hp]
      · simp [removeNode, hq, hp, removeList_comp p q cs]
theorem removeList_comp (p q : String → List (String × String) → Bool) :
    ∀ l : NodeList,
      removeList p (removeList q l) =
        removeList (fun t a => q t a || p t a) l
  | .nil => by simp [removeList]
  | .cons n tl => by
    have hn := removeNode_comp p q n
    cases hrn : removeNode q n with
    | none =>
      rw [hrn] at hn
      simp only [Option.bind] at hn
      simp [removeList, hrn, ← hn, removeList_comp p q tl]
    | some n2 =>
      rw [hrn] at hn
      simp only [Option.bind] at hn
      cases hrp : removeNode p n2 with
      | none =>
        rw [hrp] at hn
        simp [removeList, hrn, hrp, ← hn, removeList_comp p q tl]
      | some n3 =>
        rw [hrp] at hn
        simp [removeList, hrn, hrp, ← hn, removeList_comp p q tl]
end

/-- C7: the DOM cleaner is idempotent — running `_remove_noise` on an
already-cleaned tree changes nothing. -/
theorem C7_clean_idempotent (soup : NodeList) :
    remove_noise (remove_noise soup) = remove_noise soup := by
  have h1 : ∀ l, remove_noise l =
      removeList (fun t a => noisePred t a || hiddenPred t a) l := by
    intro l
    unfold remove_noise
    rw [removeList_comp]
  rw [h1, h1, removeList_comp]
  congr 1
  funext t a
  cases noisePred t a <;> cases hiddenPred t a <;> simp

/-- Helper for whitespace splitting: accumulate the current word (reversed). -/
def splitAux : List Char → List Char → List (List Char)
  | [], acc => if acc.isEmpty then [] else [acc.reverse]
  | c :: cs, acc =>
    if isSpace c then
      (if acc.isEmpty then splitAux cs [] else acc.reverse :: splitAux cs [])
    else splitAux cs (c :: acc)

/-- Embedding of Python's no-argument `str.split()`: split on whitespace
runs, with no empty words. -/
def splitWsStr (s : String) : List String := (splitAux s.toList []).map String.mk

/-- Output of `extractor.extract_meta`. -/
structure MetaOut where
  title : String
  meta_description : String
  canonical : String
deriving DecidableEq, Repr

/-- Match of `re.compile("^description$", re.I)` against an attribute value
(`re.search` with both anchors: the whole string, or the whole string up to a
final newline, is `description` case-insensitively). -/
def descNameMatches (v : String) : Bool :=
  lowerStr v == "description" || lowerStr v == "description\n"

/-- Is this node the meta tag matched by
`soup.find("meta", attrs={"name": re.compile("^description$", re.I)})`? -/
def isDescMeta : Node → Bool
  | .elem t a _ =>
    t == "meta" &&
      (match getAttr a "name" with
       | some v => descNameMatches v
       | none => false)
  | .text _ => false

/-- Match of `re.compile("canonical", re.I)` against the multi-valued `rel`
attribute: some whitespace-separated item of the attribute contains
`canonical` case-insensitively. -/
def relCanonical (v : String) : Bool :=
  (splitWsStr v).any (fun w => strContains (lowerStr w) "canonical")

/-- Is this node the link tag matched by
`soup.find("link", rel=re.compile("canonical", re.I))`? -/
def isCanonicalLink : Node → Bool
  | .elem t a _ =>
    t == "link" &&
      (match getAttr a "rel" with
       | some v => relCanonical v
       | none => false)
  | .text _ => false

/-- Embedding of `extractor.extract_meta`. -/
def extract_meta (soup : NodeList) : MetaOut :=
  let title :=
    match (listElems soup).find? (fun n => tagOf n == "title") with
    | some n => cleanText (getTextStrip n)
    | none => ""
  let desc :=
    match (listElems soup).find? isDescMeta with
    | some (.elem _ a _) =>
      (match getAttr a "content" with
       | some c => if c ≠ "" then cleanText c else ""
       | none => "")
    | _ => ""
  let canonical :=
    match (listElems soup).find? isCanonicalLink with
    | some (.elem _ a _) =>
      (match getAttr a "href" with
       | some hrefv => if hrefv ≠ "" then cleanText hrefv else ""
       | none => "")
    | _ => ""
  ⟨title, desc, canonical⟩

/-- Demo DOM for the C9 scenario: a single
`<meta name="Description" content="Best dental care">` element. -/
def demoMetaSoup : NodeList :=
  .cons (.elem "meta" [("name", "Description"), ("content", "Best dental care")] .nil) .nil

/-- Demo DOM with a matching description meta tag that has NO `content`
attribute and a matching canonical link that has NO `href` attribute. -/
def demoMetaNoAttrSoup : NodeList :=
  .cons (.elem "meta" [("name", "description")] .nil)
    (.cons (.elem "link" [("rel", "canonical")] .nil) .nil)

/-- C9: the meta extractor yields strings for title, description and
canonical, each defaulting to the empty string when the corresponding
element is missing AND when the element is found but its attribute
(`content` of the description meta, `href` of the canonical link) is
missing or empty — the guards `if meta_desc and meta_desc.get("content")`
and `if link_can and link_can.get("href")` — and matches the description
meta tag's `name` attribute case-insensitively: `<meta name="Description"
content="Best dental care">` yields description `"Best dental care"`. -/
theorem C9_meta_defaults :
    (∀ soup : NodeList,
      ((listElems soup).find? (fun n => tagOf n == "title") = none →
        (extract_meta soup).title = "") ∧
      ((listElems soup).find? isDescMeta = none →
        (extract_meta soup).meta_description = "") ∧
      ((listElems soup).find? isCanonicalLink = none →
        (extract_meta soup).canonical = "") ∧
      (∀ (t : String) (a : List (String × String)) (cs : NodeList),
        (listElems soup).find? isDescMeta = some (.elem t a cs) →
        getAttr a "content" = none ∨ getAttr a "content" = some "" →
        (extract_meta soup).meta_description = "") ∧
      (∀ (t : String) (a : List (String × String)) (cs : NodeList),
        (listElems soup).find? isCanonicalLink = some (.elem t a cs) →
        getAttr a "href" = none ∨ getAttr a "href" = some "" →
        (extract_meta soup).canonical = "")) ∧
    extract_meta demoMetaSoup = ⟨"", "Best dental care", ""⟩ ∧
    extract_meta demoMetaNoAttrSoup = ⟨"", "", ""⟩ := by
  refine ⟨fun soup => ⟨fun h => ?_, fun h => ?_, fun h => ?_,
    fun t a cs h ha => ?_, fun t a cs h ha => ?_⟩, by decide, by decide⟩
  · simp [extract_meta, h]
  · simp [extract_meta, h]
  · simp [extract_meta, h]
  · rcases ha with ha | ha <;> simp [extract_meta, h, ha]
  · rcases ha with ha | ha <;> simp [extract_meta, h, ha]

/-- C9 (witness): instantiating `C9_meta_defaults` at the empty document
(all three elements absent) and at `demoMetaNoAttrSoup` (description meta
found without `content`, canonical link found without `href`). -/
theorem C9_meta_defaults_witness :
    (extract_meta .nil).title = "" ∧
    (extract_meta .nil).meta_description = "" ∧
    (extract_meta .nil).canonical = "" ∧
    (extract_meta demoMetaNoAttrSoup).meta_description = "" ∧
    (extract_meta demoMetaNoAttrSoup).canonical = "" ∧
    extract_meta demoMetaSoup = ⟨"", "Best dental care", ""⟩ :=
  ⟨(C9_meta_defaults.1 .nil).1 rfl, (C9_meta_defaults.1 .nil).2.1 rfl,
   (C9_meta_defaults.1 .nil).2.2.1 rfl,
   (C9_meta_defaults.1 demoMetaNoAttrSoup).2.2.2.1 "meta"
     [("name", "description")] .nil rfl (Or.inl rfl),
   (C9_meta_defaults.1 demoMetaNoAttrSoup).2.2.2.2 "link"
     [("rel", "canonical")] .nil rfl (Or.inl rfl),
   C9_meta_defaults.2.1⟩

/-!
Section segmenter, `extractor.extract_sections_by_headings`: walk every
`h1`/`h2`/`h3` element in document order (`soup.find_all(re.compile("^h[1-3]$",
re.I))`); for each heading with a non-empty cleaned title, accumulate the
text of its following siblings until the next sibling whose tag name matches
`^h[1-3]$` (case-insensitively), keeping each cleaned fragment only when it
is non-empty and longer than 20 characters; finally drop thin sections and
keep at most 80.

Every sibling contributes text: in the modelled BeautifulSoup versions
(4.9+) both `Tag` and `NavigableString` expose `get_text`, so the
`getattr(sib, "get_text", None)` guard passes for every node, while
`getattr(sib, "name", None)` is `None` for strings, so only element siblings
can terminate the accumulation.
-/

/-- Match of `re.compile("^h[1-3]$", re.I)` against a tag name. -/
def isH13 (t : String) : Bool :=
  let l := lowerStr t
  l == "h1" || l == "h2" || l == "h3"

/-- Is this node an element whose tag matches `^h[1-3]$` (case-insensitive)?
Text nodes have `name = None` and never match. -/
def isH13Elem : Node → Bool
  | .elem t _ _ => isH13 t
  | .text _ => false

/-- Embedding of `int(h.name[1])`: the digit after the `h`. -/
def levelOf (t : String) : Nat :=
  match t.toList with
  | _ :: c :: _ => c.toNat - '0'.toNat
  | _ => 0

/-- One section of the segmenter's output. -/
structure Section where
  level : Nat
  heading : String
  text : String
deriving DecidableEq, Repr

/-- Inner sibling loop of `extract_sections_by_headings`: collect the cleaned
text of each following sibling, stopping at the first `h1`–`h3` element
sibling, and keep a fragment only when non-empty and longer than 20
characters. -/
def bodyParts : NodeList → List String
  | .nil => []
  | .cons n tl =>
    if isH13Elem n then []
    else
      let txt := cleanText (getTextStrip n)
      (if txt ≠ "" && decide (20 < txt.length) then [txt] else []) ++ bodyParts tl

mutual
/-- Sections contributed by one node, given its following siblings: its own
section when it is an `h1`–`h3` heading with non-empty title, then the
sections of headings nested inside it (document order). -/
def nodeSections : Node → NodeList → List Section
  | .text _, _ => []
  | .elem t a cs, tl =>
    (if isH13 t then
      (let title := cleanText (getTextStrip (.elem t a cs))
       if title ≠ "" then
         [⟨levelOf t, title, cleanText (joinSep " " (bodyParts tl))⟩]
       else [])
     else []) ++ listSections cs
/-- Sections of all `h1`–`h3` headings of a forest, in document order. -/
def listSections : NodeList → List Section
  | .nil => []
  | .cons n tl => nodeSections n tl ++ listSections tl
end

/-- Embedding of `extractor.extract_sections_by_headings`: build the section
list, drop very thin sections, keep at most 80. -/
def extract_sections_by_headings (soup : NodeList) : List Section :=
  ((listSections soup).filter
    (fun s => decide (60 < s.text.length) || decide (10 < s.heading.length))).take 80

/-- Conversion from an ordinary list of nodes to a forest. -/
def ofList : List Node → NodeList
  | [] => .nil
  | n :: tl => .cons n (ofList tl)

/-- First demo paragraph text (more than 60 characters). -/
def p1txt : String :=
  "This paragraph follows the main heading and is well over sixty characters long in total."

/-- Second demo paragraph text (more than 60 characters). -/
def p2txt : String :=
  "This paragraph follows the lower priority subheading and also exceeds sixty characters easily."

/-- Demo paragraph element wrapping `p1txt`. -/
def pElem1 : Node := .elem "p" [] (.cons (.text p1txt) .nil)

/-- Demo paragraph element wrapping `p2txt`. -/
def pElem2 : Node := .elem "p" [] (.cons (.text p2txt) .nil)

/-- Demo `h3` heading element. -/
def h3Elem : Node := .elem "h3" [] (.cons (.text "Sub Title Figure") .nil)

/-- Demo DOM: an `h1`, a long paragraph, an `h3`, another long paragraph,
all siblings. -/
def demoC3 : NodeList :=
  ofList [.elem "h1" [] (.cons (.text "Main Title") .nil), pElem1, h3Elem, pElem2]

/-- C2: every section returned by the segmenter has body text longer than 60
characters or heading text longer than 10 characters, and at most 80
sections are returned. -/
theorem C2_section_invariants (soup : NodeList) :
    (∀ s ∈ extract_sections_by_headings soup,
      60 < s.text.length ∨ 10 < s.heading.length) ∧
    (extract_sections_by_headings soup).length ≤ 80 := by
  constructor
  · intro s hs
    have h2 := List.take_subset 80 _ hs
    rw [List.mem_filter] at h2
    simpa using h2.2
  · exact List.length_take_le _ _

/-- Demo DOM for the C2 witness: one `h1` whose title is longer than 10
characters and which has no body. -/
def demoC2 : NodeList :=
  ofList [.elem "h1" [] (.cons (.text "Our Dental Services Page") .nil)]

/-- C2 (witness): instantiating `C2_section_invariants` on a concrete DOM
and its one concrete output section. -/
theorem C2_section_invariants_witness :
    (60 < (Section.mk 1 "Our Dental Services Page" "").text.length ∨
      10 < (Section.mk 1 "Our Dental Services Page" "").heading.length) ∧
    (extract_sections_by_headings demoC2).length ≤ 80 :=
  ⟨(C2_section_invariants demoC2).1 ⟨1, "Our Dental Services Page", ""⟩ (by decide),
   (C2_section_invariants demoC2).2⟩

/-- C3 (counterexample): in `demoC3` the `h1` section's body stops at the
strictly lower-priority `h3` sibling — the paragraph following the `h3`
belongs to the `h3` section, and no section carries the claim-predicted
combined body. -/
theorem C3_claim_counterexample :
    extract_sections_by_headings demoC3 =
      [⟨1, "Main Title", p1txt⟩, ⟨3, "Sub Title Figure", p2txt⟩] ∧
    ¬ (⟨1, "Main Title", cleanText (p1txt ++ " " ++ p2txt)⟩ : Section)
        ∈ extract_sections_by_headings demoC3 := by
  decide

/-- C3 (amended): a section's body accumulates the content following its
heading only up to the next sibling heading of level 1–3 of ANY level —
content after a strictly lower-priority sibling heading (e.g. an `h3` after
an `h1`) is excluded from the higher heading's section. -/
theorem C3_stop_at_any_heading_amended :
    ∀ (xs ys : List Node) (h : Node),
      isH13Elem h = true →
      (∀ n ∈ xs, isH13Elem n = false) →
      bodyParts (ofList (xs ++ h :: ys)) = bodyParts (ofList xs) := by
  intro xs ys h hh hxs
  induction xs with
  | nil => simp [ofList, bodyParts, hh]
  | cons x xt ih =>
    have hx := hxs x (by simp)
    by_cases hcase : isH13Elem x = true
    · rw [hx] at hcase; exact absurd hcase (by simp)
    · have ih2 := ih (fun n hn => hxs n (by simp [hn]))
      simp only [List.cons_append, ofList, bodyParts, hx, List.append_eq]
      rw [ih2]

/-- C3 (witness): instantiating `C3_stop_at_any_heading_amended` with a
paragraph, then an `h3` heading, then another paragraph. -/
theorem C3_stop_at_any_heading_amended_witness :
    bodyParts (ofList ([pElem1] ++ h3Elem :: [pElem2])) = bodyParts (ofList [pElem1]) :=
  C3_stop_at_any_heading_amended [pElem1] [pElem2] h3Elem (by decide) (by decide)

mutual
/-- Modelled from the spec's section-segmenter contract: the `h1`–`h3`
headings of the subtree rooted at one node, each paired with its
following-sibling forest, in document order. -/
def specNodeHeadings : Node → NodeList → List (Node × NodeList)
  | .text _, _ => []
  | .elem t a cs, tl =>
    (if isH13 t then [((.elem t a cs : Node), tl)] else []) ++ specListHeadings cs
/-- Modelled from the spec's section-segmenter contract: every `h1`–`h3`
heading of the forest in document order, paired with its following siblings. -/
def specListHeadings : NodeList → List (Node × NodeList)
  | .nil => []
  | .cons n tl => specNodeHeadings n tl ++ specListHeadings tl
end

/-- Siblings preceding the next level-1–3 heading sibling. -/
def sibsUntilHeading : NodeList → List Node
  | .nil => []
  | .cons n tl => if isH13Elem n then [] else n :: sibsUntilHeading tl

/-- Modelled from the spec's section-segmenter contract: the section of one
heading — its cleaned title (none when empty), and as body the cleaned text
of the following siblings up to the next level-1–3 sibling heading, keeping
each fragment only when it exceeds 20 characters. -/
def specSectionOf (h : Node) (rest : NodeList) : Option Section :=
  let title := cleanText (getTextStrip h)
  if title = "" then none
  else some ⟨levelOf (tagOf h), title,
    cleanText (joinSep " "
      (((sibsUntilHeading rest).map (fun n => cleanText (getTextStrip n))).filter
        (fun t => decide (20 < t.length))))⟩

theorem bodyParts_eq_spec : ∀ l : NodeList,
    bodyParts l =
      ((sibsUntilHeading l).map (fun n => cleanText (getTextStrip n))).filter
        (fun t => decide (20 < t.length))
  | .nil => rfl
  | .cons n tl => by
    by_cases hn : isH13Elem n = true
    · simp [bodyParts, sibsUntilHeading, hn]
    · simp only [Bool.not_eq_true] at hn
      by_cases hl : 20 < (cleanText (getTextStrip n)).length
      · have hne : cleanText (getTextStrip n) ≠ "" := by
          intro he
          rw [he] at hl
          simp at hl
        simp [bodyParts, sibsUntilHeading, hn, hl, hne, bodyParts_eq_spec tl]
      · simp [bodyParts, sibsUntilHeading, hn, hl, bodyParts_eq_spec tl]

mutual
theorem nodeSections_eq_spec : ∀ (n : Node) (tl : NodeList),
    nodeSections n tl =
      (specNodeHeadings n tl).filterMap (fun pr => specSectionOf pr.1 pr.2)
  | .text s, tl => by simp [nodeSections, specNodeHeadings]
  | .elem t a cs, tl => by
    by_cases ht : isH13 t = true
    · by_cases htitle : cleanText (getTextStrip (.elem t a cs)) = ""
      · simp [nodeSections, specNodeHeadings, specSectionOf, ht, htitle,
          listSections_eq_spec cs]
      · simp [nodeSections, specNodeHeadings, specSectionOf, ht, htitle,
          listSections_eq_spec cs, bodyParts_eq_spec tl, tagOf]
    · simp only [Bool.not_eq_true] at ht
      simp [nodeSections, specNodeHeadings, ht, listSections_eq_spec cs]
theorem listSections_eq_spec : ∀ l : NodeList,
    listSections l =
      (specListHeadings l).filterMap (fun pr => specSectionOf pr.1 pr.2)
  | .nil => by simp [listSections, specListHeadings]
  | .cons n tl => by
    simp [listSections, specListHeadings, List.filterMap_append,
      nodeSections_eq_spec n tl, listSections_eq_spec tl]
end

/-- C4: the segmenter visits every `h1`–`h3` heading in document order and,
for each, accumulates the text of the following siblings until the next
level-1–3 sibling heading, keeping an accumulated fragment only when its
normalized length exceeds 20 characters — i.e. the code's section list
equals the spec-side description, before and after the thin-section filter
and the 80-section cap. -/
theorem C4_segmenter_refines_spec (soup : NodeList) :
    listSections soup =
      (specListHeadings soup).filterMap (fun pr => specSectionOf pr.1 pr.2) ∧
    extract_sections_by_headings soup =
      (((specListHeadings soup).filterMap (fun pr => specSectionOf pr.1 pr.2)).filter
        (fun s => decide (60 < s.text.length) || decide (10 < s.heading.length))).take 80 :=
  ⟨listSections_eq_spec soup, by
    rw [extract_sections_by_headings, listSections_eq_spec soup]⟩

/-!
JSON-LD schema extractor, `extractor.extract_schema_jsonld`.  `json.loads`
is modelled by a recursive-descent parser `json_loads` over the JSON grammar
accepted by Python's default decoder (including the `NaN`/`Infinity`
extensions); string and number values are kept at lexeme level, since the
extractor only stores parsed values opaquely.
-/

/-- JSON value, as produced by the modelled `json.loads`. -/
inductive Json where
  | null
  | bool (b : Bool)
  | num (lexeme : String)
  | str (s : String)
  | arr (xs : List Json)
  | obj (fields : List (String × Json))
deriving Repr

/-- Whitespace skipped by Python's JSON decoder. -/
def jsonSkipWs (cs : List Char) : List Char :=
  cs.dropWhile (fun c => c = ' ' || c = '\t' || c = '\n' || c = '\r')

/-- Consume an expected literal, returning the remainder. -/
def dropLit : List Char → List Char → Option (List Char)
  | [], cs => some cs
  | _ :: _, [] => none
  | l :: ls, c :: cs => if l = c then dropLit ls cs else none

/-- Hexadecimal digit test for `\u` escapes. -/
def isHexDigitCh (c : Char) : Bool :=
  c.isDigit || ('a' ≤ c && c ≤ 'f') || ('A' ≤ c && c ≤ 'F')

/-- Body of a JSON string after the opening quote: content kept at lexeme
level (escapes validated, not decoded), rejecting raw control characters. -/
def strBody : List Char → List Char → Option (String × List Char)
  | _, [] => none
  | acc, c :: cs =>
    if c = '"' then some (String.mk acc.reverse, cs)
    else if c = '\\' then
      match cs with
      | [] => none
      | e :: cs2 =>
        if e = '"' || e = '\\' || e = '/' || e = 'b' || e = 'f' || e = 'n' ||
            e = 'r' || e = 't' then strBody (e :: c :: acc) cs2
        else if e = 'u' then
          match cs2 with
          | h1 :: h2 :: h3 :: h4 :: r =>
            if isHexDigitCh h1 && isHexDigitCh h2 && isHexDigitCh h3 && isHexDigitCh h4 then
              strBody (h4 :: h3 :: h2 :: h1 :: 'u' :: c :: acc) r
            else none
          | _ => none
        else none
    else if c.toNat < 0x20 then none
    else strBody (c :: acc) cs

/-- Integer part of a JSON number: `0` or a nonzero digit run. -/
def numIntPart : List Char → Option (List Char × List Char)
  | [] => none
  | c :: cs =>
    if c = '0' then some ([c], cs)
    else if c.isDigit then
      some (c :: cs.takeWhile Char.isDigit, cs.dropWhile Char.isDigit)
    else none

/-- Optional fraction part of a JSON number. -/
def numFracPart : List Char → Option (List Char × List Char)
  | '.' :: cs =>
    match cs.takeWhile Char.isDigit with
    | [] => none
    | ds => some ('.' :: ds, cs.dropWhile Char.isDigit)
  | cs => some ([], cs)

/-- Optional exponent part of a JSON number. -/
def numExpPart : List Char → Option (List Char × List Char)
  | e :: cs =>
    if e = 'e' || e = 'E' then
      let core := fun (sgn : List Char) (cs2 : List Char) =>
        match cs2.takeWhile Char.isDigit with
        | [] => (none : Option (List Char × List Char))
        | ds => some (e :: sgn ++ ds, cs2.dropWhile Char.isDigit)
      match cs with
      | s :: cs2 => if s = '+' || s = '-' then core [s] cs2 else core [] cs
      | [] => none
    else some ([], e :: cs)
  | [] => some ([], [])

/-- JSON number, kept as its lexeme. -/
def parseNumber (cs : List Char) : Option (String × List Char) :=
  let signed := fun (sgn : List Char) (cs1 : List Char) =>
    match numIntPart cs1 with
    | none => none
    | some (ip, r1) =>
      match numFracPart r1 with
      | none => none
      | some (fp, r2) =>
        match numExpPart r2 with
        | none => none
        | some (ep, r3) => some (String.mk (sgn ++ ip ++ fp ++ ep), r3)
  match cs with
  | '-' :: cs1 => signed ['-'] cs1
  | cs1 => signed [] cs1

mutual
/-- Fuelled JSON value parser (the fuel only bounds recursion depth). -/
def parseValue : Nat → List Char → Option (Json × List Char)
  | 0, _ => none
  | fuel + 1, cs0 =>
    match jsonSkipWs cs0 with
    | '"' :: r => (strBody [] r).map (fun pr => (.str pr.1, pr.2))
    | '[' :: r =>
      (match jsonSkipWs r with
       | ']' :: r2 => some (.arr [], r2)
       | r2 => (parseArrItems fuel r2).map (fun pr => (.arr pr.1, pr.2)))
    | '{' :: r =>
      (match jsonSkipWs r with
       | '}' :: r2 => some (.obj [], r2)
       | r2 => (parseObjItems fuel r2).map (fun pr => (.obj pr.1, pr.2)))
    | cs =>
      match dropLit "null".toList cs with
      | some r => some (.null, r)
      | none =>
      match dropLit "true".toList cs with
      | some r => some (.bool true, r)
      | none =>
      match dropLit "false".toList cs with
      | some r => some (.bool false, r)
      | none =>
      match dropLit "NaN".toList cs with
      | some r => some (.num "NaN", r)
      | none =>
      match dropLit "Infinity".toList cs with
      | some r => some (.num "Infinity", r)
      | none =>
      match dropLit "-Infinity".toList cs with
      | some r => some (.num "-Infinity", r)
      | none => (parseNumber cs).map (fun pr => (.num pr.1, pr.2))
/-- Comma-separated array items up to `]`. -/
def parseArrItems : Nat → List Char → Option (List Json × List Char)
  | 0, _ => none
  | fuel + 1, cs =>
    match parseValue fuel cs with
    | none => none
    | some (v, r) =>
      match jsonSkipWs r with
      | ',' :: r2 => (parseArrItems fuel r2).map (fun pr => (v :: pr.1, pr.2))
      | ']' :: r2 => some ([v], r2)
      | _ => none
/-- Comma-separated `"key": value` object items up to the closing brace. -/
def parseObjItems : Nat → List Char → Option (List (String × Json) × List Char)
  | 0, _ => none
  | fuel + 1, cs =>
    match jsonSkipWs cs with
    | '"' :: r =>
      (match strBody [] r with
       | none => none
       | some (k, r1) =>
         match jsonSkipWs r1 with
         | ':' :: r2 =>
           (match parseValue fuel r2 with
            | none => none
            | some (v, r3) =>
              match jsonSkipWs r3 with
              | ',' :: r4 => (parseObjItems fuel r4).map (fun pr => ((k, v) :: pr.1, pr.2))
              | '}' :: r4 => some ([(k, v)], r4)
              | _ => none)
         | _ => none)
    | _ => none
end

/-- Embedding of `json.loads`: parse one value, allowing only whitespace
around it; `none` models a raised `JSONDecodeError`. -/
def json_loads (s : String) : Option Json :=
  match parseValue (2 * s.length + 8) s.toList with
  | some (v, rest) => if (jsonSkipWs rest).isEmpty then some v else none
  | none => none

/-- Invalid JSON text of the C5 scenario: a FAQPage object with a trailing
comma. -/
def badJsonTxt : String := "\x7b\"@type\": \"FAQPage\",\x7d"


/-- Is this the script element matched by
`soup.find_all("script", attrs={"type": "application/ld+json"})`? -/
def isLdJsonScript : Node → Bool
  | .elem t a _ => t == "script" && getAttr a "type" == some "application/ld+json"
  | .text _ => false

/-- All `application/ld+json` scripts of the document, in document order. -/
def ldJsonScripts (soup : NodeList) : List Node :=
  (listElems soup).filter isLdJsonScript

/-- Loop body of `extract_schema_jsonld`: scripts with empty text are
skipped (`continue`), parse successes are appended as parsed values, parse
failures as `{"_raw": txt}` fallback records. -/
def schemaLoop : List Node → List Json
  | [] => []
  | n :: rest =>
    let txt := getTextStrip n
    if txt = "" then schemaLoop rest
    else
      (match json_loads txt with
       | some d => d
       | none => .obj [("_raw", .str txt)]) :: schemaLoop rest

/-- Embedding of `extractor.extract_schema_jsonld`. -/
def extract_schema_jsonld (soup : NodeList) : List Json :=
  schemaLoop (ldJsonScripts soup)

/-- Record produced for one `ld+json` script: `none` when its text is empty
(the script is skipped), otherwise the parsed value or the raw fallback. -/
def schemaRecordOf (n : Node) : Option Json :=
  let txt := getTextStrip n
  if txt = "" then none
  else some
    (match json_loads txt with
     | some d => d
     | none => .obj [("_raw", .str txt)])

/-- Demo DOM with one `ld+json` script holding the invalid JSON of the C5
scenario. -/
def demoBadJsonSoup : NodeList :=
  ofList [.elem "script" [("type", "application/ld+json")] (.cons (.text badJsonTxt) .nil)]

/-- Demo DOM with one `ld+json` script whose text content is empty. -/
def demoEmptyScriptSoup : NodeList :=
  ofList [.elem "script" [("type", "application/ld+json")] .nil]

theorem schemaLoop_eq_filterMap (l : List Node) :
    schemaLoop l = l.filterMap schemaRecordOf := by
  induction l with
  | nil => rfl
  | cons n rest ih =>
    by_cases ht : getTextStrip n = ""
    · simp [schemaLoop, schemaRecordOf, ht, ih]
    · simp [schemaLoop, schemaRecordOf, ht, ih]

/-- C5 (amended): the schema extractor produces exactly one record per
`application/ld+json` script WITH NON-EMPTY TEXT — the parsed JSON value
when the text parses and a `{"_raw": txt}` fallback otherwise (so a
malformed script with non-empty text is never dropped, and the extractor is
a total function); in particular the invalid FAQPage scenario yields one
fallback record. -/
theorem C5_schema_amended (soup : NodeList) :
    extract_schema_jsonld soup = (ldJsonScripts soup).filterMap schemaRecordOf ∧
    (extract_schema_jsonld soup).length =
      ((ldJsonScripts soup).filter (fun n => getTextStrip n ≠ "")).length ∧
    extract_schema_jsonld demoBadJsonSoup = [.obj [("_raw", .str badJsonTxt)]] := by
  refine ⟨schemaLoop_eq_filterMap _, ?_, rfl⟩
  rw [extract_schema_jsonld, schemaLoop_eq_filterMap]
  induction ldJsonScripts soup with
  | nil => rfl
  | cons n rest ih =>
    by_cases ht : getTextStrip n = ""
    · simp [schemaRecordOf, ht, ih]
    · simp [schemaRecordOf, ht, ih]

/-- C5 (counterexample): an `application/ld+json` script with empty text
content produces NO output record — the claim's "one output record per
script" fails on it. -/
theorem C5_claim_counterexample :
    (ldJsonScripts demoEmptyScriptSoup).length = 1 ∧
    extract_schema_jsonld demoEmptyScriptSoup = [] :=
  ⟨rfl, rfl⟩

/-!
Internal-link extractor, `extractor.extract_internal_links`, with
`utils.safe_urljoin`.  `urllib.parse.urlsplit` / `urlparse` / `urljoin` are
modelled on the fragment exercised: absolute `http(s)` bases, hrefs that are
absolute, scheme-relative, path-absolute or path-relative (without dot
segments); `none` models the `ValueError` that `urlsplit` raises on a netloc
with unbalanced square brackets (the Invalid-IPv6-URL check).  `urljoin`
calls `urlsplit` on both arguments, so it fails exactly when one of them
fails; `safe_urljoin` catches that and returns the href unchanged, but the
extractor then calls `urlparse(full).netloc` UNGUARDED, so the error
escapes the extractor itself.
-/

/-- Character allowed in a URL scheme after the initial letter. -/
def schemeCharOk (c : Char) : Bool :=
  c.isAlpha || c.isDigit || c = '+' || c = '-' || c = '.'

/-- Scan for the `scheme:` delimiter. -/
def findScheme : List Char → List Char → Option (List Char × List Char)
  | [], _ => none
  | c :: r, acc =>
    if c = ':' then some (acc.reverse, r)
    else if schemeCharOk c then findScheme r (c :: acc) else none

/-- Split a leading `scheme:` (first character a letter) off a URL,
lowercasing the scheme as `urlsplit` does. -/
def splitScheme (url : List Char) : String × List Char :=
  match url with
  | [] => ("", url)
  | c :: _ =>
    if c.isAlpha then
      match findScheme url [] with
      | some (s, r) => (lowerStr (String.mk s), r)
      | none => ("", url)
    else ("", url)

/-- Character terminating the authority component. -/
def netlocDelim (c : Char) : Bool := c = '/' || c = '?' || c = '#'

/-- CPython's Invalid-IPv6-URL test: a square bracket without its partner in
the netloc makes `urlsplit` raise `ValueError`. -/
def bracketBad (netloc : List Char) : Bool :=
  (netloc.contains '[' && !netloc.contains ']') ||
    (netloc.contains ']' && !netloc.contains '[')

/-- Embedding of `urllib.parse.urlsplit` on the modelled fragment:
`(scheme, netloc, rest)`, `none` for a raised `ValueError`. -/
def urlsplitM (url : String) : Option (String × String × String) :=
  let sr := splitScheme url.toList
  let nr :=
    match sr.2 with
    | '/' :: '/' :: r =>
      (String.mk (r.takeWhile (fun c => !netlocDelim c)),
       String.mk (r.dropWhile (fun c => !netlocDelim c)))
    | r => ("", String.mk r)
  if bracketBad nr.1.toList then none else some (sr.1, nr.1, nr.2)

/-- Embedding of `urlparse(url).netloc` (`none` = raised `ValueError`). -/
def urlparseNetloc (url : String) : Option String :=
  (urlsplitM url).map (fun t => t.2.1)

/-- Base path up to and including its last slash (the merge step of
relative-reference resolution). -/
def keepToLastSlash (l : List Char) : List Char :=
  (l.reverse.dropWhile (fun c => c != '/')).reverse

/-- Does the path begin with a slash (path-absolute reference)? -/
def startsWithSlash (s : String) : Bool :=
  match s.toList with
  | '/' :: _ => true
  | _ => false

/-- Embedding of `urllib.parse.urljoin` on the modelled fragment. -/
def urljoin_model (base href : String) : Option String :=
  match urlsplitM base, urlsplitM href with
  | some (bs, bn, bp), some (hs, hn, hp) =>
    some
      (if href = "" then base
       else if hs ≠ "" ∧ hs ≠ bs then href
       else if hn ≠ "" then bs ++ "://" ++ hn ++ hp
       else if hp = "" then base
       else if startsWithSlash hp then bs ++ "://" ++ bn ++ hp
       else bs ++ "://" ++ bn ++ String.mk (keepToLastSlash bp.toList) ++ hp)
  | _, _ => none

/-- Embedding of `utils.safe_urljoin`: `urljoin(base, href)` with any
exception caught, falling back to the href itself. -/
def safe_urljoin (base href : String) : String :=
  (urljoin_model base href).getD href

/-- One `{"url": ..., "anchor": ...}` record of `extract_internal_links`. -/
structure LinkOut where
  url : String
  anchor : String
deriving DecidableEq, Repr

/-- Is this node an `<a>` element (`soup.find_all("a")`)? -/
def isAnchor : Node → Bool
  | .elem t _ _ => t == "a"
  | .text _ => false

/-- Anchor loop of `extract_internal_links`; `none` models the uncaught
`ValueError` raised by `urlparse(full)` on line 72 aborting the call. -/
def linksLoop (baseUrl baseNetloc : String) : List Node → Option (List LinkOut)
  | [] => some []
  | n :: rest =>
    match n with
    | .text _ => linksLoop baseUrl baseNetloc rest
    | .elem _ a _ =>
      match getAttr a "href" with
      | none => linksLoop baseUrl baseNetloc rest
      | some href =>
        if href = "" then linksLoop baseUrl baseNetloc rest
        else
          let full := safe_urljoin baseUrl href
          match urlparseNetloc full with
          | none => none
          | some nl =>
            if lowerStr nl = baseNetloc then
              (linksLoop baseUrl baseNetloc rest).map
                (fun ls => ⟨full, cleanText (getTextStrip n)⟩ :: ls)
            else linksLoop baseUrl baseNetloc rest

/-- Embedding of `extractor.extract_internal_links`; `none` models an
uncaught `ValueError` (from `urlparse` on the base URL or on a resolved
href). -/
def extract_internal_links (soup : NodeList) (base_url : String) : Option (List LinkOut) :=
  match urlparseNetloc base_url with
  | none => none
  | some bn => linksLoop base_url (lowerStr bn) ((listElems soup).filter isAnchor)

/-- Demo DOM of the C6 scenario: one internal and one external anchor. -/
def demoLinksSoup : NodeList :=
  ofList [.elem "a" [("href", "/services")] (.cons (.text "Services") .nil),
          .elem "a" [("href", "https://other.com/x")] (.cons (.text "X") .nil)]

/-- Demo DOM with a malformed href (unbalanced bracket in the authority). -/
def demoBadHrefSoup : NodeList :=
  ofList [.elem "a" [("href", "http://[")] (.cons (.text "broken") .nil)]


/-- C6 (code evaluated at the failing input): on a page at
`https://site.com/` the anchors `/services` and `https://other.com/x` yield
exactly the one internal link `https://site.com/services` with anchor text
`Services`; `safe_urljoin` resolves the malformed href `http://[` to the
href itself without failing; but the extractor as a whole then aborts with
`ValueError` on that very href, because line 72 feeds it to `urlparse`
unguarded — contradicting the claimed graceful degradation. -/
theorem C6_links_code_bug :
    extract_internal_links demoLinksSoup "https://site.com/" =
      some [⟨"https://site.com/services", "Services"⟩] ∧
    safe_urljoin "https://site.com/" "http://[" = "http://[" ∧
    extract_internal_links demoBadHrefSoup "https://site.com/" = none :=
  ⟨rfl, rfl, rfl⟩

/-!
FAQ detector, `extractor.detect_faq_pairs`.  Sibling lookups
(`find_next_sibling`, `parent`) need node identity, so nodes are addressed
by paths (child-index lists) into the document forest.  `find_next_sibling()`
with no arguments matches only Tag siblings, skipping strings.
-/

/-- Embedding of Python string slicing `s[:n]`. -/
def takeStr (s : String) (n : Nat) : String := String.mk (s.toList.take n)

/-- Node at an index of a forest. -/
def nthNode : NodeList → Nat → Option Node
  | .nil, _ => none
  | .cons n _, 0 => some n
  | .cons _ tl, i + 1 => nthNode tl i

/-- Children of a node (a text node has none). -/
def childrenOf : Node → NodeList
  | .text _ => .nil
  | .elem _ _ cs => cs

/-- Node at a path (sequence of child indices) into a forest. -/
def getAtPath : NodeList → List Nat → Option Node
  | _, [] => none
  | l, i :: rest =>
    match nthNode l i, rest with
    | some n, [] => some n
    | some n, _ :: _ => getAtPath (childrenOf n) rest
    | none, _ => none

mutual
/-- Paths of the element nodes of a subtree, in document order; `me` is the
path of the subtree root. -/
def nodeElemPaths : Node → List Nat → List (List Nat)
  | .text _, _ => []
  | .elem _ _ cs, me => me :: listElemPaths cs 0 me
/-- Paths of the element nodes of a forest, in document order. -/
def listElemPaths : NodeList → Nat → List Nat → List (List Nat)
  | .nil, _, _ => []
  | .cons n tl, i, above =>
    nodeElemPaths n (above ++ [i]) ++ listElemPaths tl (i + 1) above
end

/-- Paths of all element nodes of the document, in document order — the
path-level counterpart of `soup.find_all(True)`. -/
def elemPaths (soup : NodeList) : List (List Nat) := listElemPaths soup 0 []

/-- Node addressed by a path. -/
def nodeAt (soup : NodeList) (p : List Nat) : Option Node := getAtPath soup p

/-- Embedding of `" ".join(tag.get("class") or [])`: the HTML parser splits
the `class` attribute on whitespace into a list, which the code re-joins. -/
def classJoined (a : List (String × String)) : String :=
  joinSep " " (splitWsStr ((getAttr a "class").getD ""))

/-- First candidate filter of `detect_faq_pairs`: `"faq"` occurs in the
lowercased joined class or in the lowercased id. -/
def faqAttrMatch : Node → Bool
  | .elem _ a _ =>
    strContains (lowerStr (classJoined a)) "faq" ||
      strContains (lowerStr ((getAttr a "id").getD "")) "faq"
  | .text _ => false

/-- Fallback candidate filter: a `section` or `div` whose class mentions an
accordion/toggle/collapse pattern. -/
def accordionMatch : Node → Bool
  | .elem t a _ =>
    (t == "section" || t == "div") &&
      (strContains (lowerStr (classJoined a)) "accordion" ||
       strContains (lowerStr (classJoined a)) "toggle" ||
       strContains (lowerStr (classJoined a)) "collapse")
  | .text _ => false

/-- Candidate container paths: the faq-attribute matches, or — only when
there are none — the accordion-pattern matches. -/
def faqCandidatePaths (soup : NodeList) : List (List Nat) :=
  let cand1 := (elemPaths soup).filter (fun p =>
    match nodeAt soup p with
    | some n => faqAttrMatch n
    | none => false)
  if cand1.isEmpty then
    (elemPaths soup).filter (fun p =>
      match nodeAt soup p with
      | some n => accordionMatch n
      | none => false)
  else cand1

/-- Candidates actually considered: `candidates[:5]`. -/
def faqCandidatesConsidered (soup : NodeList) : List (List Nat) :=
  (faqCandidatePaths soup).take 5

/-- Is the second path strictly below the first (a proper descendant)? -/
def strictUnder : List Nat → List Nat → Bool
  | [], [] => false
  | [], _ :: _ => true
  | _ :: _, [] => false
  | a :: c2, b :: p2 => a == b && strictUnder c2 p2

/-- Question-candidate tags: `c.find_all(["h3", "h4", "button"])`. -/
def isQTag : Node → Bool
  | .elem t _ _ => t == "h3" || t == "h4" || t == "button"
  | .text _ => false

/-- Paths of the question candidates inside one container, document order. -/
def qPathsIn (soup : NodeList) (c : List Nat) : List (List Nat) :=
  (elemPaths soup).filter (fun p =>
    strictUnder c p &&
      (match nodeAt soup p with
       | some n => isQTag n
       | none => false))

/-- Sibling list containing the node at a path. -/
def parentList (soup : NodeList) : List Nat → Option NodeList
  | [] => none
  | i :: rest =>
    match rest with
    | [] => some soup
    | _ :: _ =>
      match nthNode soup i with
      | some n => parentList (childrenOf n) rest
      | none => none

/-- Drop the first `k` nodes of a forest. -/
def dropNodes : NodeList → Nat → NodeList
  | l, 0 => l
  | .nil, _ + 1 => .nil
  | .cons _ tl, k + 1 => dropNodes tl k

/-- First element node of a forest (strings are skipped, as by the
argumentless `find_next_sibling`). -/
def firstElemOf : NodeList → Option Node
  | .nil => none
  | .cons n tl =>
    match n with
    | .elem .. => some n
    | .text _ => firstElemOf tl

/-- Embedding of `q.find_next_sibling()`: the first element among the
following siblings. -/
def nextSiblingElem (soup : NodeList) (p : List Nat) : Option Node :=
  match parentList soup p, p.getLast? with
  | some l, some i => firstElemOf (dropNodes l (i + 1))
  | _, _ => none

/-- Answer lookup of `detect_faq_pairs`: the cleaned text of the question's
next sibling element, or — when that is empty — of the parent's next
sibling element (the soup root has no siblings). -/
def faqAnswerText (soup : NodeList) (q : List Nat) : String :=
  let atxt :=
    match nextSiblingElem soup q with
    | some sib => cleanText (getTextStrip sib)
    | none => ""
  if atxt ≠ "" then atxt
  else
    match q.dropLast with
    | [] => ""
    | pp => match nextSiblingElem soup pp with
      | some sib2 => cleanText (getTextStrip sib2)
      | none => ""

/-- One `{"q": ..., "a": ...}` record. -/
structure FaqPair where
  q : String
  a : String
deriving DecidableEq, Repr

/-- Deduplication key: `(qtxt.lower(), atxt.lower()[:60])`. -/
def keyOfPair (p : FaqPair) : String × String := (lowerStr p.q, takeStr (lowerStr p.a) 60)

/-- Inner question loop of `detect_faq_pairs`, threading the `seen` key set
and the accumulated pair list. -/
def faqQLoop (soup : NodeList) :
    List (List Nat) → List (String × String) → List FaqPair →
      List (String × String) × List FaqPair
  | [], seen, acc => (seen, acc)
  | q :: qs, seen, acc =>
    match nodeAt soup q with
    | none => faqQLoop soup qs seen acc
    | some n =>
      let qtxt := cleanText (getTextStrip n)
      if qtxt = "" ∨ qtxt.length < 6 then faqQLoop soup qs seen acc
      else
        let atxt := faqAnswerText soup q
        if atxt = "" then faqQLoop soup qs seen acc
        else
          let key := (lowerStr qtxt, takeStr (lowerStr atxt) 60)
          if key ∈ seen then faqQLoop soup qs seen acc
          else faqQLoop soup qs (key :: seen) (acc ++ [⟨qtxt, atxt⟩])

/-- Outer candidate loop of `detect_faq_pairs` over `candidates[:5]`. -/
def faqCandLoop (soup : NodeList) :
    List (List Nat) → List (String × String) → List FaqPair → List FaqPair
  | [], _, acc => acc
  | c :: cands, seen, acc =>
    let res := faqQLoop soup (qPathsIn soup c) seen acc
    faqCandLoop soup cands res.1 res.2

/-- Embedding of `extractor.detect_faq_pairs`: run the loops, keep only
pairs whose answer exceeds 20 characters, cap at 30. -/
def detect_faq_pairs (soup : NodeList) : List FaqPair :=
  ((faqCandLoop soup (faqCandidatesConsidered soup) [] []).filter
    (fun p => decide (20 < p.a.length))).take 30

/-- Demo DOM: a `div.faq-section` with one question and one answer. -/
def demoFaqSoup : NodeList :=
  ofList [.elem "div" [("class", "faq-section")] (ofList [
    .elem "h3" [] (.cons (.text "What is SEO?") .nil),
    .elem "p" [] (.cons (.text "Search engine optimization improves rankings.") .nil)])]


theorem faqQLoop_inv (soup : NodeList) :
    ∀ (qs : List (List Nat)) (seen : List (String × String)) (acc : List FaqPair),
      (acc.map keyOfPair).Nodup →
      (∀ p ∈ acc, keyOfPair p ∈ seen) →
      ((faqQLoop soup qs seen acc).2.map keyOfPair).Nodup ∧
      (∀ p ∈ (faqQLoop soup qs seen acc).2, keyOfPair p ∈ (faqQLoop soup qs seen acc).1) := by
  intro qs
  induction qs with
  | nil => intro seen acc h1 h2; exact ⟨h1, h2⟩
  | cons q qs ih =>
    intro seen acc h1 h2
    cases hn : nodeAt soup q with
    | none => simpa [faqQLoop, hn] using ih seen acc h1 h2
    | some n =>
      by_cases hq : cleanText (getTextStrip n) = "" ∨ (cleanText (getTextStrip n)).length < 6
      · simpa [faqQLoop, hn, hq] using ih seen acc h1 h2
      · by_cases ha : faqAnswerText soup q = ""
        · simpa [faqQLoop, hn, hq, ha] using ih seen acc h1 h2
        · by_cases hk : (lowerStr (cleanText (getTextStrip n)),
              takeStr (lowerStr (faqAnswerText soup q)) 60) ∈ seen
          · simpa [faqQLoop, hn, hq, ha, hk] using ih seen acc h1 h2
          · have h1' : ((acc ++ [(⟨cleanText (getTextStrip n), faqAnswerText soup q⟩ : FaqPair)]).map keyOfPair).Nodup := by
              rw [List.map_append]
              rw [List.nodup_append]
              refine ⟨h1, List.nodup_singleton _, ?_⟩
              intro k hk1 hk2
              simp only [List.map_cons, List.map_nil, List.mem_singleton] at hk2
              subst hk2
              obtain ⟨p, hp, hkey⟩ := List.mem_map.mp hk1
              apply hk
              have hmem := h2 p hp
              rw [hkey] at hmem
              simpa [keyOfPair] using hmem
            have h2' : ∀ p ∈ acc ++ [(⟨cleanText (getTextStrip n), faqAnswerText soup q⟩ : FaqPair)],
                keyOfPair p ∈ (lowerStr (cleanText (getTextStrip n)),
                  takeStr (lowerStr (faqAnswerText soup q)) 60) :: seen := by
              intro p hp
              rcases List.mem_append.mp hp with hp1 | hp2
              · exact List.mem_cons_of_mem _ (h2 p hp1)
              · simp only [List.mem_singleton] at hp2
                subst hp2
                exact List.mem_cons_self _ _
            simpa [faqQLoop, hn, hq, ha, hk] using ih _ _ h1' h2'

theorem faqCandLoop_nodup (soup : NodeList) :
    ∀ (cands : List (List Nat)) (seen : List (String × String)) (acc : List FaqPair),
      (acc.map keyOfPair).Nodup →
      (∀ p ∈ acc, keyOfPair p ∈ seen) →
      ((faqCandLoop soup cands seen acc).map keyOfPair).Nodup := by
  intro cands
  induction cands with
  | nil => intro seen acc h1 _; exact h1
  | cons c cs ih =>
    intro seen acc h1 h2
    have h := faqQLoop_inv soup (qPathsIn soup c) seen acc h1 h2
    simpa [faqCandLoop] using ih _ _ h.1 h.2

/-- C8: the FAQ detector considers at most 5 candidate containers, its
output pairs have pairwise distinct `(lowercased question, first 60
characters of the lowercased answer)` keys, every returned answer exceeds 20
characters, and at most 30 pairs are returned. -/
theorem C8_faq_invariants (soup : NodeList) :
    (faqCandidatesConsidered soup).length ≤ 5 ∧
    ((detect_faq_pairs soup).map keyOfPair).Nodup ∧
    (∀ p ∈ detect_faq_pairs soup, 20 < p.a.length) ∧
    (detect_faq_pairs soup).length ≤ 30 := by
  refine ⟨List.length_take_le _ _, ?_, ?_, List.length_take_le _ _⟩
  · have hall := faqCandLoop_nodup soup (faqCandidatesConsidered soup) [] []
      (by simp) (by simp)
    have hsub : List.Sublist (detect_faq_pairs soup)
        (faqCandLoop soup (faqCandidatesConsidered soup) [] []) :=
      (List.take_sublist _ _).trans (List.filter_sublist _)
    exact List.Nodup.sublist (List.Sublist.map keyOfPair hsub) hall
  · intro p hp
    have h2 := List.take_subset 30 _ hp
    rw [List.mem_filter] at h2
    simpa using h2.2

/-- C8 (witness): instantiating `C8_faq_invariants` on a concrete FAQ DOM
and its one concrete output pair. -/
theorem C8_faq_invariants_witness :
    (faqCandidatesConsidered demoFaqSoup).length ≤ 5 ∧
    20 < (FaqPair.mk "What is SEO?" "Search engine optimization improves rankings.").a.length ∧
    (detect_faq_pairs demoFaqSoup).length ≤ 30 :=
  ⟨(C8_faq_invariants demoFaqSoup).1,
   (C8_faq_invariants demoFaqSoup).2.2.1
     ⟨"What is SEO?", "Search engine optimization improves rankings."⟩ (by decide),
   (C8_faq_invariants demoFaqSoup).2.2.2⟩

/-!
Idempotence of `clean_text`: the collapsed string has no adjacent whitespace
and only blank whitespace, on such strings collapsing is the identity, and
trimming is idempotent.
-/

theorem isSpace_blank : isSpace ' ' = true := by decide

/-- Head of a `dropWhile` result fails the predicate. -/
theorem dropWhileHeadFalse {α : Type} (p : α → Bool) :
    ∀ (x : List α) (c : α) (r : List α), x.dropWhile p = c :: r → p c = false := by
  intro x
  induction x with
  | nil => intro c r h; simp [List.dropWhile] at h
  | cons a t ih =>
    intro c r h
    by_cases ha : p a = true
    · rw [List.dropWhile_cons_of_pos ha] at h
      exact ih c r h
    · rw [Bool.not_eq_true] at ha
      rw [List.dropWhile_cons_of_neg (by simp [ha])] at h
      cases h
      exact ha

/-- Collapsing preserves the whitespace-status of the head. -/
theorem collapseWs_head_status : ∀ (b : Char) (t : List Char),
    ∃ h rest, collapseWs (b :: t) = h :: rest ∧ isSpace h = isSpace b
  | b, [] => by
    by_cases hb : isSpace b = true
    · exact ⟨' ', [], by simp [collapseWs, hb], by rw [hb, isSpace_blank]⟩
    · exact ⟨b, [], by simp [collapseWs, hb], rfl⟩
  | b, c :: t => by
    by_cases hbc : (isSpace b && isSpace c) = true
    · obtain ⟨h, rest, heq, hstat⟩ := collapseWs_head_status c t
      refine ⟨h, rest, by simpa [collapseWs, hbc] using heq, ?_⟩
      have hparts := Bool.and_eq_true_iff.mp hbc
      rw [hstat, hparts.1, hparts.2]
    · by_cases hb : isSpace b = true
      · refine ⟨' ', collapseWs (c :: t), ?_, by rw [hb, isSpace_blank]⟩
        simp only [collapseWs, hbc, if_false, if_pos hb]
        simp [hbc]
      · refine ⟨b, collapseWs (c :: t), ?_, rfl⟩
        simp only [collapseWs]
        rw [if_neg (by simp [hbc]), if_neg hb]

/-- After collapsing, every whitespace character is the blank. -/
theorem collapseWs_spacesBlank :
    ∀ l : List Char, ∀ c ∈ collapseWs l, isSpace c = true → c = ' '
  | [] => by simp [collapseWs]
  | [a] => by
    by_cases ha : isSpace a = true
    · simp [collapseWs, ha]
    · simp only [collapseWs, if_neg ha]
      intro c hc hcs
      rw [List.mem_singleton] at hc
      rw [hc] at hcs
      exact absurd hcs ha
  | a :: b :: t => by
    by_cases hab : (isSpace a && isSpace b) = true
    · simpa [collapseWs, hab] using collapseWs_spacesBlank (b :: t)
    · intro c hc hcs
      simp only [collapseWs, hab, if_false] at hc
      rw [Bool.not_eq_true] at hab
      rcases List.mem_cons.mp hc with hc1 | hc2
      · by_cases ha : isSpace a = true
        · rw [if_pos ha] at hc1
          exact hc1
        · rw [if_neg ha] at hc1
          rw [hc1] at hcs
          exact absurd hcs ha
      · exact collapseWs_spacesBlank (b :: t) c hc2 hcs

/-- After collapsing, no two adjacent characters are both whitespace. -/
theorem collapseWs_chain :
    ∀ l : List Char,
      List.Chain' (fun x y => ¬(isSpace x = true ∧ isSpace y = true)) (collapseWs l)
  | [] => by simp [collapseWs]
  | [a] => by
    by_cases ha : isSpace a = true
    · simp only [collapseWs, if_pos ha]
      exact List.chain'_singleton _
    · simp only [collapseWs, if_neg ha]
      exact List.chain'_singleton _
  | a :: b :: t => by
    by_cases hab : (isSpace a && isSpace b) = true
    · simpa [collapseWs, hab] using collapseWs_chain (b :: t)
    · obtain ⟨h, rest, heq, hstat⟩ := collapseWs_head_status b t
      have hch := collapseWs_chain (b :: t)
      rw [heq] at hch
      have hx : isSpace (if isSpace a = true then ' ' else a) = isSpace a := by
        by_cases ha : isSpace a = true
        · rw [if_pos ha, ha, isSpace_blank]
        · rw [if_neg ha]
      rw [Bool.not_eq_true] at hab
      simp only [collapseWs, hab, Bool.false_eq_true, if_false, heq]
      rw [List.chain'_cons]
      refine ⟨?_, hch⟩
      intro hcon
      rw [hx] at hcon
      rw [hstat] at hcon
      rw [hcon.1, hcon.2] at hab
      simp at hab

/-- Collapsing is the identity on strings with only blank whitespace and no
adjacent whitespace pair. -/
theorem collapseWs_eq_self :
    ∀ r : List Char, (∀ c ∈ r, isSpace c = true → c = ' ') →
      List.Chain' (fun x y => ¬(isSpace x = true ∧ isSpace y = true)) r →
      collapseWs r = r
  | [], _, _ => rfl
  | [c], hb, _ => by
    by_cases hc : isSpace c = true
    · have h2 := hb c (by simp) hc
      subst h2
      decide
    · simp only [collapseWs, if_neg hc]
  | c₁ :: c₂ :: cs, hb, hch => by
    have hpair := (List.chain'_cons.mp hch).1
    have ih := collapseWs_eq_self (c₂ :: cs)
      (fun c hc => hb c (List.mem_cons_of_mem _ hc)) (List.chain'_cons.mp hch).2
    have hcond : (isSpace c₁ && isSpace c₂) = false := by
      by_cases h1 : isSpace c₁ = true
      · by_cases h2 : isSpace c₂ = true
        · exact absurd ⟨h1, h2⟩ hpair
        · rw [Bool.not_eq_true] at h2
          rw [h1, h2, Bool.and_false]
      · rw [Bool.not_eq_true] at h1
        rw [h1, Bool.false_and]
    by_cases h1 : isSpace c₁ = true
    · have hc1 := hb c₁ (by simp) h1
      subst hc1
      simp only [collapseWs, hcond, Bool.false_eq_true, if_false, if_pos h1, ih]
    · simp only [collapseWs, hcond, Bool.false_eq_true, if_false, if_neg h1, ih]

theorem trimLeft_eq_dropWhile (l : List Char) : trimLeft l = List.dropWhile isSpace l := rfl

theorem trimRight_eq_rdropWhile (l : List Char) : trimRight l = List.rdropWhile isSpace l := rfl

theorem cleanTextL_idem (l : List Char) : cleanTextL (cleanTextL l) = cleanTextL l := by
  have hyw : cleanTextL l <+: List.dropWhile isSpace (collapseWs l) := by
    rw [cleanTextL, trimRight_eq_rdropWhile, trimLeft_eq_dropWhile]
    exact List.rdropWhile_prefix _ _
  have hwc : List.dropWhile isSpace (collapseWs l) <:+ collapseWs l :=
    List.dropWhile_suffix _
  have hyinf : cleanTextL l <:+: collapseWs l := hyw.isInfix.trans hwc.isInfix
  have hchain := List.Chain'.infix (collapseWs_chain l) hyinf
  have hcoll : collapseWs (cleanTextL l) = cleanTextL l :=
    collapseWs_eq_self _ (fun c hc => collapseWs_spacesBlank l c (hyinf.subset hc))
      hchain
  have hdrop : List.dropWhile isSpace (cleanTextL l) = cleanTextL l := by
    cases hy : cleanTextL l with
    | nil => rfl
    | cons c ys =>
      obtain ⟨t, ht⟩ := hyw
      rw [hy] at ht
      have hw' : List.dropWhile isSpace (collapseWs l) = c :: (ys ++ t) := by
        rw [← ht]
        simp
      have hcf := dropWhileHeadFalse isSpace (collapseWs l) c (ys ++ t) hw'
      rw [List.dropWhile_cons_of_neg (by simp [hcf])]
  have hr : List.rdropWhile isSpace (cleanTextL l) = cleanTextL l := by
    conv_lhs => rw [cleanTextL, trimRight_eq_rdropWhile]
    rw [List.rdropWhile_idempotent]
    rw [← trimRight_eq_rdropWhile]
    rfl
  show trimRight (trimLeft (collapseWs (cleanTextL l))) = cleanTextL l
  rw [hcoll, trimLeft_eq_dropWhile, hdrop, trimRight_eq_rdropWhile, hr]

theorem cleanText_idem (s : String) : cleanText (cleanText s) = cleanText s := by
  simp only [cleanText, String.toList]
  rw [cleanTextL_idem]

/-!
Tokenizer (`utils.tokenize`, `utils.STOPWORDS`) and the page assembly
`extractor.extract_page` (modelled from the already-fetched soup on: the
fetch itself is I/O outside the extraction pipeline).
-/

/-- Embedding of `utils.STOPWORDS`. -/
def STOPWORDS : List String :=
  ["a", "an", "the", "and", "or", "but", "if", "then", "else", "when", "while",
   "for", "to", "of", "in", "on", "at", "by", "with", "from", "as", "is", "are",
   "was", "were", "be", "been", "being",
   "this", "that", "these", "those", "it", "its", "you", "your", "we", "our",
   "they", "their", "i", "me", "my", "he", "she", "them", "his", "her",
   "can", "could", "should", "would", "may", "might", "will", "just"]

/-- Characters kept by `re.sub(r"[^a-z0-9\\s\\-]", " ", text)`. -/
def tokCharOk (c : Char) : Bool :=
  ('a' ≤ c && c ≤ 'z') || ('0' ≤ c && c ≤ '9') || isSpace c || c = '-'

/-- Embedding of the tokenizer's character substitution. -/
def tokenSub (s : String) : String :=
  String.mk (s.toList.map (fun c => if tokCharOk c then c else ' '))

/-- Embedding of `utils.tokenize`: normalize, substitute, split on
whitespace, keep non-empty non-stopword tokens longer than 2 characters. -/
def tokenize (text : String) : List String :=
  let t := tokenSub (normalize_ws_lower text)
  (splitWsStr t).filter
    (fun tok => tok ≠ "" && !(STOPWORDS.contains tok) && decide (2 < tok.length))

/-- Non-empty cleaned texts of all elements with one heading tag. -/
def headingTexts (soup : NodeList) (tg : String) : List String :=
  ((listElems soup).filter (fun n => tagOf n == tg)).filterMap (fun n =>
    let t := cleanText (getTextStrip n)
    if t = "" then none else some t)

/-- Embedding of `extractor.extract_headings`: the `h1`..`h6` map as an
association list. -/
def extract_headings (soup : NodeList) : List (String × List String) :=
  ["h1", "h2", "h3", "h4", "h5", "h6"].map (fun tg => (tg, headingTexts soup tg))

/-- Embedding of `extractor.extract_alt_texts`. -/
def extract_alt_texts (soup : NodeList) : List String :=
  ((listElems soup).filter (fun n => tagOf n == "img")).filterMap (fun n =>
    match n with
    | .elem _ a _ =>
      let alt := cleanText ((getAttr a "alt").getD "")
      if alt = "" then none else some alt
    | .text _ => none)

/-- The page model returned by `extractor.extract_page`. -/
structure Page where
  url : String
  meta : MetaOut
  headings : List (String × List String)
  sections : List Section
  faq_dom : List FaqPair
  schema_jsonld : List Json
  internal_links : List LinkOut
  image_alt_texts : List String
  text : String
  word_count : Nat

/-- Embedding of `extractor.extract_page` after the fetch: clean the soup in
place, run every extractor, compute the page text and its token count.
`none` models the uncaught `ValueError` that `extract_internal_links` can
raise. -/
def extract_page_from_soup (rawSoup : NodeList) (url : String) : Option Page :=
  let soup := remove_noise rawSoup
  match extract_internal_links soup url with
  | none => none
  | some links =>
    let text := cleanText (listGetTextStrip soup)
    some ⟨url, extract_meta soup, extract_headings soup,
      extract_sections_by_headings soup, detect_faq_pairs soup,
      extract_schema_jsonld soup, links, extract_alt_texts soup,
      text, (tokenize text).length⟩

/-- Words produced by whitespace splitting are never empty. -/
theorem splitAux_words_ne_nil :
    ∀ (l acc : List Char), ∀ w ∈ splitAux l acc, w ≠ [] := by
  intro l
  induction l with
  | nil =>
    intro acc w hw
    by_cases ha : acc.isEmpty
    · simp [splitAux, ha] at hw
    · rw [Bool.not_eq_true] at ha
      simp only [splitAux, ha, Bool.false_eq_true, if_false] at hw
      rw [List.mem_singleton] at hw
      subst hw
      simp only [ne_eq, List.reverse_eq_nil_iff]
      intro hnil
      rw [hnil] at ha
      simp at ha
  | cons c cs ih =>
    intro acc w hw
    by_cases hc : isSpace c = true
    · by_cases ha : acc.isEmpty
      · simp only [splitAux, hc, if_pos ha, if_true] at hw
        exact ih [] w hw
      · rw [Bool.not_eq_true] at ha
        simp only [splitAux, hc, ha, Bool.false_eq_true, if_true, if_false] at hw
        rcases List.mem_cons.mp hw with hw1 | hw2
        · subst hw1
          simp only [ne_eq, List.reverse_eq_nil_iff]
          intro hnil
          rw [hnil] at ha
          simp at ha
        · exact ih [] w hw2
    · simp only [splitAux, hc, if_false] at hw
      exact ih (c :: acc) w hw

/-- String-level version: `str.split()` never yields the empty string. -/
theorem splitWsStr_words_ne_empty (s : String) : ∀ w ∈ splitWsStr s, w ≠ "" := by
  intro w hw
  obtain ⟨wl, hwl, hmk⟩ := List.mem_map.mp hw
  subst hmk
  have hnn := splitAux_words_ne_nil s.toList [] wl hwl
  intro h
  exact hnn (congrArg String.data h)

/-- On already-cleaned text, `tokenize` is exactly: lowercase, substitute
the character class, split on whitespace, drop stopwords and tokens of
length at most 2 — the inner re-cleaning is the identity and the non-empty
filter is vacuous. -/
theorem tokenize_of_clean (t : String) :
    tokenize (cleanText t) =
      (splitWsStr (tokenSub (lowerStr (cleanText t)))).filter
        (fun tok => !(STOPWORDS.contains tok) && decide (2 < tok.length)) := by
  unfold tokenize normalize_ws_lower
  rw [cleanText_idem]
  apply List.filter_congr
  intro tok htok
  have hne := splitWsStr_words_ne_empty _ tok htok
  simp [hne]

/-- Demo DOM: one paragraph with six words, one of them a stopword. -/
def demoWordSoup : NodeList :=
  ofList [.elem "p" [] (.cons (.text "The dentist offers modern dental care") .nil)]

/-- C10: for every page the pipeline produces, `word_count` is the number of
tokens surviving the tokenizer's filtering — lowercasing the page text,
replacing every character outside `[a-z0-9]`, whitespace and hyphen by a
blank, then dropping stopwords and tokens of length 2 or less — and on the
demo page this gives 5, while the raw whitespace-separated word count of the
visible text is 6. -/
theorem C10_word_count_spec :
    (∀ (soup : NodeList) (url : String) (page : Page),
      extract_page_from_soup soup url = some page →
      page.word_count =
        ((splitWsStr (tokenSub (lowerStr page.text))).filter
          (fun tok => !(STOPWORDS.contains tok) && decide (2 < tok.length))).length) ∧
    (extract_page_from_soup demoWordSoup "https://site.com/").map Page.word_count = some 5 ∧
    (extract_page_from_soup demoWordSoup "https://site.com/").map
      (fun p => (splitWsStr p.text).length) = some 6 := by
  refine ⟨?_, rfl, rfl⟩
  intro soup url page h
  simp only [extract_page_from_soup] at h
  cases hl : extract_internal_links (remove_noise soup) url with
  | none => rw [hl] at h; simp at h
  | some links =>
    rw [hl] at h
    simp only [Option.some.injEq] at h
    subst h
    simp only [tokenize_of_clean]

/-- The page extracted from `demoWordSoup`. -/
def demoPage : Page :=
  (extract_page_from_soup demoWordSoup "https://site.com/").getD
    ⟨"", ⟨"", "", ""⟩, [], [], [], [], [], [], "", 0⟩

/-- C10 (witness): instantiating `C10_word_count_spec` at the demo page. -/
theorem C10_word_count_spec_witness :
    demoPage.word_count =
      ((splitWsStr (tokenSub (lowerStr demoPage.text))).filter
        (fun tok => !(STOPWORDS.contains tok) && decide (2 < tok.length))).length :=
  C10_word_count_spec.1 demoWordSoup "https://site.com/" demoPage rfl
